import Mathlib

/-!
Verification of the QR-inventory core: the QR payload codec (`generateQRData`,
`parseQRData`, `isValidQRData`), the hex transcoder (`qrDataToHex`,
`hexToQRData`, `formatHexForDisplay`), the pre-generated-pool assignment
protocol (`updateLocationQR` / `updateAreaQR` / `updateSectionQR` /
`updateItemQR`), and the backup format (`migrateBackupData`,
`checkBackupCompatibility`, `restoreFromBackup`).

JavaScript strings are modelled as lists of UTF-16 code units (`JStr`).
JavaScript built-ins used by the code (`split`, `join`, `toUpperCase`,
`toLowerCase`, `parseInt`, `Number`, `String.fromCharCode`,
`encodeURIComponent`, `decodeURIComponent`, the `\s` regex class) are modelled
explicitly; each model's doc comment states its scope.  Functions that can
throw are `Option`-valued (`none` models the thrown exception), and
`parseQRData` distinguishes a thrown `URIError` from a `null` return via
`ParseResult`.
-/

/-- JavaScript string: a list of UTF-16 code units. -/
abbrev JStr := List Nat

/-- Build a `JStr` from a Lean string literal (used only for BMP characters,
where a `Char` is a single UTF-16 code unit). -/
def str (s : String) : JStr := s.data.map Char.toNat

/-- `String.prototype.toUpperCase`, per code unit.  Modelled as the ASCII case
map (a-z to A-Z, everything else unchanged); the special one-to-many Unicode
uppercasings do not occur in the payloads and hex strings this code handles. -/
def jsToUpper (c : Nat) : Nat := if 97 ≤ c ∧ c ≤ 122 then c - 32 else c

/-- `String.prototype.toLowerCase`, per code unit, ASCII scope as above. -/
def jsToLower (c : Nat) : Nat := if 65 ≤ c ∧ c ≤ 90 then c + 32 else c

/-- The regex class `\s` (ECMA-262 WhiteSpace plus LineTerminator). -/
def isJsWhitespace (c : Nat) : Bool :=
  c == 9 || c == 10 || c == 11 || c == 12 || c == 13 || c == 32 || c == 160 ||
  c == 5760 || (decide (8192 ≤ c) && decide (c ≤ 8202)) || c == 8232 ||
  c == 8233 || c == 8239 || c == 8287 || c == 12288 || c == 65279

/-- Value of a hexadecimal digit, case-insensitive (`none` otherwise). -/
def hexVal? (c : Nat) : Option Nat :=
  if 48 ≤ c ∧ c ≤ 57 then some (c - 48)
  else if 65 ≤ c ∧ c ≤ 70 then some (c - 55)
  else if 97 ≤ c ∧ c ≤ 102 then some (c - 87)
  else none

/-- Lowercase hexadecimal digit character for a value below 16
(as produced by `Number.prototype.toString(16)`). -/
def hexChar (d : Nat) : Nat := if d < 10 then 48 + d else 87 + d

/-- `n.toString(16)`: lowercase hexadecimal rendering without leading zeros.
Spelled out for the four possible digit counts of a UTF-16 code unit
(`charCodeAt` values are below 2^16, the only inputs this code feeds it). -/
def toHexLower (n : Nat) : JStr :=
  if n < 16 then [hexChar n]
  else if n < 256 then [hexChar (n / 16), hexChar (n % 16)]
  else if n < 4096 then [hexChar (n / 256), hexChar (n / 16 % 16), hexChar (n % 16)]
  else [hexChar (n / 4096 % 16), hexChar (n / 256 % 16), hexChar (n / 16 % 16), hexChar (n % 16)]

/-- `s.padStart(2, "0")` for the digit strings produced by `toHexLower`. -/
def padStart2 (s : JStr) : JStr := List.replicate (2 - s.length) 48 ++ s

/-- `qrDataToHex` (src/lib/qr-utils.ts): maps each character to
`charCodeAt(0).toString(16).padStart(2, "0")`, joins, then uppercases. -/
def qrDataToHex (qrData : JStr) : JStr :=
  ((qrData.map fun c => padStart2 (toHexLower c)).flatten).map jsToUpper

/-- The whitespace-strip-and-uppercase step `hex.replace(/\s/g, "").toUpperCase()`
shared by `hexToQRData` and `formatHexForDisplay`. -/
def hexClean (hex : JStr) : JStr :=
  (hex.filter fun c => !isJsWhitespace c).map jsToUpper

/-- `parseInt(s, 16)` (ECMA-262 ToInt32 not applied; `parseInt` returns a
mathematical integer or NaN, modelled as `Option Int`): skip leading
whitespace, optional sign, optional `0x`/`0X` prefix, then the longest prefix
of hexadecimal digits; NaN when that prefix is empty. -/
def jsParseInt16 (s : JStr) : Option Int :=
  let s1 := s.dropWhile isJsWhitespace
  let signed : Int × JStr :=
    match s1 with
    | c :: t => if c = 43 then (1, t) else if c = 45 then (-1, t) else (1, c :: t)
    | [] => (1, [])
  let body : JStr :=
    match signed.2 with
    | c :: x :: t => if c = 48 ∧ (x = 120 ∨ x = 88) then t else c :: x :: t
    | t => t
  let digits := body.takeWhile fun c => (hexVal? c).isSome
  if digits = [] then none
  else some (signed.1 * digits.foldl (fun acc c => acc * 16 + ((hexVal? c).getD 0 : Int)) 0)

/-- `String.fromCharCode`: the argument is converted with ToUint16. -/
def toUint16 (v : Int) : Nat := (v % 65536).toNat

/-- The pair-decoding loop of `hexToQRData`: for each 2-character pair,
`parseInt(pair, 16)`, failing on NaN, appending `String.fromCharCode(byte)`.
The input list has even length when called. -/
def decodePairs : JStr → Option JStr
  | [] => some []
  | a :: b :: rest => do
    let v ← jsParseInt16 [a, b]
    let r ← decodePairs rest
    pure (toUint16 v :: r)
  | [_] => none

/-- `hexToQRData` (src/lib/qr-utils.ts): strip whitespace, uppercase, fail on
odd length, then decode 2-character pairs with `parseInt(·, 16)`; `none`
models the `null` return.  Nothing in the `try` block throws, so the
`catch` is dead code. -/
def hexToQRData (hex : JStr) : Option JStr :=
  let cleanHex := hexClean hex
  if cleanHex.length % 2 ≠ 0 then none else decodePairs cleanHex

/-- `clean.match(/.{1,4}/g)`: chunks of up to four characters.  The cleaned
string contains no line terminators (they are in `\s` and were stripped), so
`.` matches every remaining character. -/
def chunks4 : JStr → List JStr
  | [] => []
  | a :: b :: c :: d :: e :: rest => [a, b, c, d] :: chunks4 (e :: rest)
  | l => [l]

/-- `formatHexForDisplay` (src/lib/qr-utils.ts): strip whitespace, uppercase,
group into chunks of four joined by single spaces; on the empty string the
regex match is `null` and `|| clean` returns the cleaned (empty) string. -/
def formatHexForDisplay (hex : JStr) : JStr :=
  let clean := hexClean hex
  if clean = [] then clean else List.intercalate [32] (chunks4 clean)

/-- Characters `encodeURIComponent` leaves unescaped: letters, digits, and
`- _ . ! ~ * ' ( )`. -/
def uriUnreserved (c : Nat) : Bool :=
  (decide (65 ≤ c) && decide (c ≤ 90)) || (decide (97 ≤ c) && decide (c ≤ 122)) ||
  (decide (48 ≤ c) && decide (c ≤ 57)) ||
  c == 45 || c == 95 || c == 46 || c == 33 || c == 126 || c == 42 ||
  c == 39 || c == 40 || c == 41

/-- Uppercase hexadecimal digit character for a value below 16 (percent
escapes are emitted uppercase). -/
def hexUpperChar (d : Nat) : Nat := if d < 10 then 48 + d else 55 + d

/-- The escape `%XX` for one octet. -/
def pctByteStr (b : Nat) : JStr := [37, hexUpperChar (b / 16), hexUpperChar (b % 16)]

/-- UTF-8 octets of a code point (below 0x110000). -/
def utf8Bytes (v : Nat) : List Nat :=
  if v < 128 then [v]
  else if v < 2048 then [192 + v / 64, 128 + v % 64]
  else if v < 65536 then [224 + v / 4096, 128 + v / 64 % 64, 128 + v % 64]
  else [240 + v / 262144, 128 + v / 4096 % 64, 128 + v / 64 % 64, 128 + v % 64]

/-- Percent-escaped UTF-8 encoding of a code point. -/
def pctUtf8 (v : Nat) : JStr := ((utf8Bytes v).map pctByteStr).flatten

/-- `encodeURIComponent` (ECMA-262 Encode with the component unreserved set):
unreserved characters pass through, surrogate pairs combine to a code point,
a lone surrogate throws `URIError` (modelled as `none`), every other code
point is UTF-8 encoded and percent-escaped. -/
def encodeURIComponent : JStr → Option JStr
  | [] => some []
  | c :: cs =>
    if uriUnreserved c then (encodeURIComponent cs).map (c :: ·)
    else if 55296 ≤ c ∧ c ≤ 56319 then
      match cs with
      | d :: cs2 =>
        if 56320 ≤ d ∧ d ≤ 57343 then
          (encodeURIComponent cs2).map
            (pctUtf8 (65536 + (c - 55296) * 1024 + (d - 56320)) ++ ·)
        else none
      | [] => none
    else if 56320 ≤ c ∧ c ≤ 57343 then none
    else (encodeURIComponent cs).map (pctUtf8 c ++ ·)

/-- UTF-16 code units of a code point (a surrogate pair above 0xFFFF). -/
def utf16Chars (v : Nat) : JStr :=
  if v < 65536 then [v]
  else [55296 + (v - 65536) / 1024, 56320 + (v - 65536) % 1024]

/-- Auxiliary for `decodeURIComponent`: consume the input one character or
one `%XX` escape at a time.  `pending = some (k, minV, acc)` means a UTF-8
sequence is in progress with `k` continuation octets still expected, minimum
legal code point `minV` (the overlong bound) and accumulated value `acc`;
`pending = none` means no sequence is in progress. -/
def decodeURIAux : Option (Nat × Nat × Nat) → JStr → Option JStr
  | none, [] => some []
  | some _, [] => none
  | pending, c0 :: rest =>
    if c0 ≠ 37 then
      match pending with
      | none => (decodeURIAux none rest).map (c0 :: ·)
      | some _ => none
    else
    match rest with
    | a :: b :: rest2 =>
      match hexVal? a, hexVal? b with
      | some x, some y =>
        let B := 16 * x + y
        match pending with
        | none =>
          if B < 128 then (decodeURIAux none rest2).map (B :: ·)
          else if B < 192 then none
          else if B < 224 then decodeURIAux (some (1, 128, B - 192)) rest2
          else if B < 240 then decodeURIAux (some (2, 2048, B - 224)) rest2
          else if B < 248 then decodeURIAux (some (3, 65536, B - 240)) rest2
          else none
        | some (k, minV, acc) =>
          if 128 ≤ B ∧ B < 192 then
            let acc2 := acc * 64 + (B - 128)
            if k = 1 then
              if acc2 < minV ∨ 1114111 < acc2 ∨ (55296 ≤ acc2 ∧ acc2 ≤ 57343) then none
              else (decodeURIAux none rest2).map (utf16Chars acc2 ++ ·)
            else decodeURIAux (some (k - 1, minV, acc2)) rest2
          else none
      | _, _ => none
    | _ => none

/-- `decodeURIComponent` (ECMA-262 Decode with an empty reserved set): every
`%XX` group is decoded; a leading octet opens a 1-4 octet UTF-8 sequence
whose continuation octets must each appear as a further `%XX`; malformed
escapes, truncated or unterminated sequences, stray continuation octets,
overlong encodings, surrogate code points and values beyond U+10FFFF throw
`URIError` (modelled as `none`). -/
def decodeURIComponent (s : JStr) : Option JStr := decodeURIAux none s

/-- The `EntityType` union from src/types/inventory.ts.  The value
`'section'` is spelled `sectionT` because `section` is a Lean keyword. -/
inductive EntityType
  | location
  | area
  | sectionT
  | item
  deriving DecidableEq, Repr

/-- The string value of an `EntityType`. -/
def entityTypeStr : EntityType → JStr
  | .location => str "location"
  | .area => str "area"
  | .sectionT => str "section"
  | .item => str "item"

/-- The prefix selection of `generateQRData`:
`prefix ? \x7bprefix\x7d-\x7btypePrefix\x7d : typePrefix`, where JavaScript
treats both `undefined` and the empty string as falsy. -/
def fullCodeOf (pfx : Option JStr) (typeCode : JStr) : JStr :=
  match pfx with
  | some p => if p ≠ [] then p ++ 45 :: typeCode else typeCode
  | none => typeCode

/-- `generateQRData` (src/lib/qr-utils.ts).  The UUID produced by the
internal `generateUUID()` call is passed as the explicit argument `id`
(the random source is the only impurity).  The `prefix` parameter is called
`pfx` because `prefix` is a Lean keyword.  The result is `none` when
`encodeURIComponent` would throw (lone-surrogate name). -/
def generateQRData (type : EntityType) (name : JStr) (id : JStr) (pfx : Option JStr) : Option JStr :=
  (encodeURIComponent name).map fun encodedName =>
    let typeCode := ((entityTypeStr type).map jsToUpper).take 3
    fullCodeOf pfx typeCode ++ 58 :: id ++ 58 :: encodedName

/-- The record `parseQRData` returns; `pfx` models the optional `prefix`
field (`prefix` is a Lean keyword). -/
structure QRRecord where
  type : JStr
  id : JStr
  name : JStr
  pfx : Option JStr
  deriving DecidableEq, Repr

/-- Outcome of `parseQRData`: a thrown `URIError` (from
`decodeURIComponent`), the `null` return, or a parsed record. -/
inductive ParseResult
  | thrown
  | nullResult
  | parsed (r : QRRecord)
  deriving DecidableEq, Repr

/-- The prefix handling of `parseQRData`: when the first segment contains a
hyphen it is split on `'-'`, the last piece is the type code and the rest
(re-joined with `'-'`) is the prefix. -/
def splitTypePart (typePart : JStr) : Option JStr × JStr :=
  if typePart.contains 45 then
    let prefixParts := List.splitOn 45 typePart
    (some (List.intercalate [45] prefixParts.dropLast), prefixParts.getLastD [])
  else (none, typePart)

/-- The fixed type table of `parseQRData`, with the lenient fallback
`typePrefix.toLowerCase()` for unmapped codes
(`typeMap[typePrefix] || typePrefix.toLowerCase()`). -/
def typeMap (code : JStr) : JStr :=
  if code = str "LOC" then str "location"
  else if code = str "ARE" then str "area"
  else if code = str "SEC" then str "section"
  else if code = str "ITE" then str "item"
  else if code = str "PRE" then str "pregenerated"
  else code.map jsToLower

/-- `parseQRData` (src/lib/qr-utils.ts): split on `':'`, `null` when fewer
than two segments; the remaining segments after the id are re-joined with
`':'` and percent-decoded (JavaScript evaluates this before the prefix
handling, and an undecodable name makes the function throw). -/
def parseQRData (qrData : JStr) : ParseResult :=
  match List.splitOn 58 qrData with
  | typePart :: id :: nameParts =>
    match (if nameParts.isEmpty then some [] else decodeURIComponent (List.intercalate [58] nameParts)) with
    | none => .thrown
    | some name =>
      let ps := splitTypePart typePart
      .parsed ⟨typeMap ps.2, id, name, ps.1⟩
  | _ => .nullResult

/-- A case-insensitive hexadecimal digit, the character class `[0-9a-f]`
under the regex `i` flag. -/
def isHexDigitCI (c : Nat) : Bool :=
  (decide (48 ≤ c) && decide (c ≤ 57)) || (decide (97 ≤ c) && decide (c ≤ 102)) ||
  (decide (65 ≤ c) && decide (c ≤ 70))

/-- The anchored regex `/^[0-9a-f]{8}-[0-9a-f]{4}-[0-9a-f]{4}-[0-9a-f]{4}-[0-9a-f]{12}$/i`
of `isValidQRData`.  Since hex digits are never `'-'`, a string matches
exactly when splitting on `'-'` yields five all-hex groups of lengths
8, 4, 4, 4, 12. -/
def uuidTest (s : JStr) : Bool :=
  match List.splitOn 45 s with
  | [a, b, c, d, e] =>
    a.length == 8 && b.length == 4 && c.length == 4 && d.length == 4 && e.length == 12 &&
    (a ++ b ++ c ++ d ++ e).all isHexDigitCI
  | _ => false

/-- `isValidQRData` (src/lib/qr-utils.ts): split on `':'`, `false` when fewer
than two segments, otherwise test the second segment against the UUID regex
(the type code and any later segments are never examined). -/
def isValidQRData (qrData : JStr) : Bool :=
  match List.splitOn 58 qrData with
  | _ :: id :: _ => uuidTest id
  | _ => false

/-- `Location` (src/types/inventory.ts, extended variant): optional `icon`
and `color`. -/
structure LocationR where
  id : String
  name : String
  qrData : String
  createdAt : String
  icon : Option String
  color : Option String
  deriving DecidableEq, Repr

/-- `Area` (src/types/inventory.ts). -/
structure AreaR where
  id : String
  name : String
  qrData : String
  createdAt : String
  locationId : String
  deriving DecidableEq, Repr

/-- `Section` (src/types/inventory.ts). -/
structure SectionR where
  id : String
  name : String
  qrData : String
  createdAt : String
  locationId : String
  areaId : String
  deriving DecidableEq, Repr

/-- `CustomField` (src/types/inventory.ts). -/
structure CustomFieldR where
  id : String
  label : String
  value : String
  deriving DecidableEq, Repr

/-- `Item` (src/types/inventory.ts, extended variant): nullable `sectionId`
and the optional enhanced-management fields. -/
structure ItemR where
  id : String
  name : String
  qrData : String
  createdAt : String
  locationId : String
  areaId : String
  sectionId : Option String
  description : Option String
  quantity : Option Int
  condition : Option String
  photos : Option (List String)
  customFields : Option (List CustomFieldR)
  notes : Option String
  deriving DecidableEq, Repr

/-- `PreGeneratedQR` (src/types/inventory.ts, extended variant); `pfx` models
the nullable `prefix` field (`prefix` is a Lean keyword). -/
structure PreGeneratedQRR where
  qrData : String
  pfx : Option String
  createdAt : String
  assignedTo : Option String
  assignedType : Option EntityType
  label : Option String
  notes : Option String
  deriving DecidableEq, Repr

/-- `InventoryData` (src/types/inventory.ts). -/
structure InventoryDataR where
  locations : List LocationR
  areas : List AreaR
  sections : List SectionR
  items : List ItemR
  deriving DecidableEq, Repr

/-- The state held by the `useInventory` hook: the entity collections
(`data`) and the pre-generated pool (`preGeneratedQRs`); the two
AsyncStorage blobs persist exactly these values. -/
structure AppState where
  data : InventoryDataR
  preGeneratedQRs : List PreGeneratedQRR
  deriving DecidableEq, Repr

/-- `updateLocationQR` (src/hooks/use-inventory.ts): set the matching
location's `qrData`, then, when some pool entry has that `qrData`, mark every
such entry assigned to this entity — with no check that the entry was
unassigned. -/
def updateLocationQR (id newQRData : String) (s : AppState) : AppState :=
  let newData := { s.data with
    locations := s.data.locations.map fun loc =>
      if loc.id = id then { loc with qrData := newQRData } else loc }
  let pool :=
    if s.preGeneratedQRs.any fun q => q.qrData == newQRData then
      s.preGeneratedQRs.map fun q =>
        if q.qrData = newQRData then
          { q with assignedTo := some id, assignedType := some EntityType.location }
        else q
    else s.preGeneratedQRs
  { data := newData, preGeneratedQRs := pool }

/-- `updateAreaQR` (src/hooks/use-inventory.ts), same shape as
`updateLocationQR`. -/
def updateAreaQR (id newQRData : String) (s : AppState) : AppState :=
  let newData := { s.data with
    areas := s.data.areas.map fun area =>
      if area.id = id then { area with qrData := newQRData } else area }
  let pool :=
    if s.preGeneratedQRs.any fun q => q.qrData == newQRData then
      s.preGeneratedQRs.map fun q =>
        if q.qrData = newQRData then
          { q with assignedTo := some id, assignedType := some EntityType.area }
        else q
    else s.preGeneratedQRs
  { data := newData, preGeneratedQRs := pool }

/-- `updateSectionQR` (src/hooks/use-inventory.ts), same shape as
`updateLocationQR`. -/
def updateSectionQR (id newQRData : String) (s : AppState) : AppState :=
  let newData := { s.data with
    sections := s.data.sections.map fun sec =>
      if sec.id = id then { sec with qrData := newQRData } else sec }
  let pool :=
    if s.preGeneratedQRs.any fun q => q.qrData == newQRData then
      s.preGeneratedQRs.map fun q =>
        if q.qrData = newQRData then
          { q with assignedTo := some id, assignedType := some EntityType.sectionT }
        else q
    else s.preGeneratedQRs
  { data := newData, preGeneratedQRs := pool }

/-- `updateItemQR` (src/hooks/use-inventory.ts), same shape as
`updateLocationQR`. -/
def updateItemQR (id newQRData : String) (s : AppState) : AppState :=
  let newData := { s.data with
    items := s.data.items.map fun item =>
      if item.id = id then { item with qrData := newQRData } else item }
  let pool :=
    if s.preGeneratedQRs.any fun q => q.qrData == newQRData then
      s.preGeneratedQRs.map fun q =>
        if q.qrData = newQRData then
          { q with assignedTo := some id, assignedType := some EntityType.item }
        else q
    else s.preGeneratedQRs
  { data := newData, preGeneratedQRs := pool }

/-- The merge loop of `restoreFromBackup`: start from the live list and push
each incoming record whose key is not yet present in the accumulated list. -/
def mergeByKey {α : Type} (key : α → String) (live incoming : List α) : List α :=
  incoming.foldl (fun acc x => if acc.any fun y => key y == key x then acc else acc ++ [x]) live

/-- The two restore modes of `restoreFromBackup`. -/
inductive RestoreMode
  | merge
  | replace
  deriving DecidableEq, Repr

/-- The argument of `restoreFromBackup`; `preGeneratedQRs` is optional at
runtime (the code guards with `backupData.preGeneratedQRs || []`). -/
structure RestorePayload where
  inventory : InventoryDataR
  preGeneratedQRs : Option (List PreGeneratedQRR)
  deriving DecidableEq, Repr

/-- `restoreFromBackup` (src/hooks/use-inventory.ts): `replace` installs the
snapshot wholesale; `merge` appends, per collection, the snapshot records
whose key (entity `id`, pool `qrData`) is not yet present. -/
def restoreFromBackup (backupData : RestorePayload) (mode : RestoreMode) (s : AppState) : AppState :=
  match mode with
  | .replace =>
    { data := backupData.inventory, preGeneratedQRs := backupData.preGeneratedQRs.getD [] }
  | .merge =>
    { data := {
        locations := mergeByKey (fun l => l.id) s.data.locations backupData.inventory.locations,
        areas := mergeByKey (fun a => a.id) s.data.areas backupData.inventory.areas,
        sections := mergeByKey (fun c => c.id) s.data.sections backupData.inventory.sections,
        items := mergeByKey (fun i => i.id) s.data.items backupData.inventory.items },
      preGeneratedQRs :=
        mergeByKey (fun q => q.qrData) s.preGeneratedQRs (backupData.preGeneratedQRs.getD []) }

/-- The optional `metadata` block of a backup (src/components/qr-label-modal.tsx). -/
structure BackupMetadata where
  appVersion : String
  deviceInfo : Option String
  totalPhotos : Option Nat
  deriving DecidableEq, Repr

/-- `BackupData` (src/components/qr-label-modal.tsx).  `preGeneratedQRs` is
optional at runtime: older exports predate the field and the code guards with
`data.preGeneratedQRs || []`. -/
structure BackupData where
  version : String
  exportedAt : String
  inventory : InventoryDataR
  preGeneratedQRs : Option (List PreGeneratedQRR)
  metadata : Option BackupMetadata
  deriving DecidableEq, Repr

/-- `BACKUP_VERSION` (src/components/qr-label-modal.tsx). -/
def BACKUP_VERSION : String := "2.0"

/-- `APP_VERSION` (src/components/qr-label-modal.tsx). -/
def APP_VERSION : String := "1.1.0"

/-- `items.reduce((count, item) => count + (item.photos?.length || 0), 0)`. -/
def totalPhotosCount (items : List ItemR) : Nat :=
  items.foldl (fun count item => count + (item.photos.getD []).length) 0

/-- `migrateBackupData` (src/components/qr-label-modal.tsx): on version
`"1.0"`, items gain `quantity ?? 1` and `condition ?? 'good'`, locations and
pool entries are shallow-copied unchanged (their new fields are optional),
`version` becomes `BACKUP_VERSION` and a `metadata` block is added; any other
version is returned unchanged. -/
def migrateBackupData (data : BackupData) : BackupData :=
  if data.version = "1.0" then
    let migratedItems := data.inventory.items.map fun item =>
      { item with
        quantity := some (item.quantity.getD 1),
        condition := some (item.condition.getD "good") }
    let migratedLocations := data.inventory.locations.map fun location => location
    let migratedQRs := (data.preGeneratedQRs.getD []).map fun qr => qr
    { data with
      version := BACKUP_VERSION,
      inventory := { data.inventory with items := migratedItems, locations := migratedLocations },
      preGeneratedQRs := some migratedQRs,
      metadata := some {
        appVersion := APP_VERSION,
        deviceInfo := none,
        totalPhotos := some (totalPhotosCount migratedItems) } }
  else data

/-- `version.split('.')` for a Lean-level `String`: split the character list
on `'.'` (String.prototype.split with a single-character separator). -/
def jsSplitDot (s : String) : List String := (List.splitOn '.' s.data).map String.mk

/-- Result of `checkBackupCompatibility`. -/
structure CompatResult where
  compatible : Bool
  warnings : List String
  deriving DecidableEq, Repr

/-- `Number(s)` as applied to version segments.  Modelled for the strings the
version comparison meets: the empty string converts to 0 and a string of
decimal digits to its value; everything else (signs, blanks, decimals,
exponents, hex) is modelled as NaN (`none`), which makes every `>` comparison
false, exactly as NaN does. -/
def jsNumber (s : String) : Option Int :=
  if s.data = [] then some 0
  else if s.data.all Char.isDigit then
    some (Int.ofNat (s.data.foldl (fun n c => n * 10 + (c.toNat - 48)) 0))
  else none

/-- A `<` comparison on possibly-NaN numbers: false when either side is NaN. -/
def jsLtOpt (a b : Option Int) : Bool :=
  match a, b with
  | some x, some y => decide (x < y)
  | _, _ => false

/-- The warning text for a backup from a newer app version. -/
def newerVersionWarning : String :=
  "This backup was created with a newer version of the app and may not be compatible."

/-- The warning text for a backup from an older app version. -/
def olderVersionWarning : String :=
  "This backup was created with an older version and will be automatically migrated."

/-- `checkBackupCompatibility` (src/components/qr-label-modal.tsx): compare
only the major components (`version.split('.').map(Number)` destructured to
its head) of the backup version and `BACKUP_VERSION`; a strictly larger major
is incompatible, a strictly smaller one adds a migration warning, and more
than 100 photos adds a size warning. -/
def checkBackupCompatibility (data : BackupData) : CompatResult :=
  let majorVersion := jsNumber ((jsSplitDot data.version).headD "")
  let currentMajor := jsNumber ((jsSplitDot BACKUP_VERSION).headD "")
  if jsLtOpt currentMajor majorVersion then
    { compatible := false, warnings := [newerVersionWarning] }
  else
    let warnings1 := if jsLtOpt majorVersion currentMajor then [olderVersionWarning] else []
    let totalPhotos := totalPhotosCount data.inventory.items
    let warnings2 :=
      if 100 < totalPhotos then
        ["This backup contains " ++ toString totalPhotos ++ " photos which may take a while to restore."]
      else []
    { compatible := true, warnings := warnings1 ++ warnings2 }

/-- Characters that are uppercase hexadecimal digits: the alphabet of
`qrDataToHex` output. -/
def isUpperHex (c : Nat) : Prop := (48 ≤ c ∧ c ≤ 57) ∨ (65 ≤ c ∧ c ≤ 70)

/-- The 2-character pairs `cleanHex.substring(i, i + 2)` that the loop of
`hexToQRData` feeds to `parseInt(·, 16)` (a trailing singleton can only
occur for odd lengths, which the function rejects first). -/
def pairChunks : JStr → List JStr
  | [] => []
  | a :: b :: rest => [a, b] :: pairChunks rest
  | [a] => [[a]]

/-- `parseInt(·, 16)` applied to every pair in order, failing on the first
NaN — the sequencing the loop of `hexToQRData` performs before
`String.fromCharCode`. -/
def parsePairs : List JStr → Option (List Int)
  | [] => some []
  | pr :: rest =>
    match jsParseInt16 pr, parsePairs rest with
    | some v, some vs => some (v :: vs)
    | _, _ => none

/-- What `merge`-mode restore does to one collection: the live records stay
as an unchanged prefix, the appended records all come from the snapshot with
keys absent from the live list, and every snapshot key absent from the live
list is represented among the appended records. -/
def MergeAppend {α : Type} (key : α → String) (live incoming merged : List α) : Prop :=
  ∃ extra, merged = live ++ extra ∧
    (∀ x ∈ extra, x ∈ incoming ∧ ∀ y ∈ live, key x ≠ key y) ∧
    (∀ z ∈ incoming, (∀ y ∈ live, key z ≠ key y) → ∃ x ∈ extra, key x = key z)

/-! ### Supporting lemmas -/

theorem splitOn_sep_of_not_mem {sep : Nat} {x : JStr} (hx : sep ∉ x) (y : JStr) :
    List.splitOn sep (x ++ sep :: y) = x :: List.splitOn sep y := by
  apply List.splitOnP_first
  · intro a ha
    simp only [beq_iff_eq]
    exact fun h => hx (h ▸ ha)
  · simp

theorem splitOn_eq_single {sep : Nat} {x : JStr} (hx : sep ∉ x) :
    List.splitOn sep x = [x] := by
  apply List.splitOnP_eq_single
  intro a ha
  simp only [beq_iff_eq]
  exact fun h => hx (h ▸ ha)

theorem splitOn_append_sep (sep : Nat) (x y : JStr) :
    List.splitOn sep (x ++ sep :: y) = List.splitOn sep x ++ List.splitOn sep y := by
  induction x with
  | nil => simp [List.splitOn, List.splitOnP_cons]
  | cons c x ih =>
    by_cases hc : c = sep
    · subst hc
      simp only [List.cons_append, List.splitOn, List.splitOnP_cons, beq_self_eq_true, if_pos]
      simpa [List.splitOn] using ih
    · simp only [List.cons_append, List.splitOn, List.splitOnP_cons, beq_iff_eq, hc, if_neg,
        not_false_iff] at ih ⊢
      rw [ih]
      have h1 : List.splitOnP (· == sep) x ≠ [] := List.splitOnP_ne_nil _ x
      cases h : List.splitOnP (· == sep) x with
      | nil => exact absurd h h1
      | cons a l => simp [List.modifyHead]

theorem intercalate_single (sep : JStr) (x : JStr) : sep.intercalate [x] = x := by
  simp [List.intercalate]

theorem hexVal?_hexUpperChar {d : Nat} (h : d < 16) : hexVal? (hexUpperChar d) = some d := by
  unfold hexVal? hexUpperChar
  split_ifs <;> simp_all <;> omega

theorem hexUpperChar_range {d : Nat} (h : d < 16) :
    (48 ≤ hexUpperChar d ∧ hexUpperChar d ≤ 57) ∨ (65 ≤ hexUpperChar d ∧ hexUpperChar d ≤ 70) := by
  unfold hexUpperChar
  split_ifs <;> omega

theorem isUpperHex_not_ws {c : Nat} (h : isUpperHex c) : isJsWhitespace c = false := by
  simp only [isJsWhitespace, Bool.or_eq_false_iff, Bool.and_eq_false_iff, beq_eq_false_iff_ne,
    ne_eq, decide_eq_false_iff_not, not_le]
  rcases h with h | h <;> omega

theorem isUpperHex_toUpper {c : Nat} (h : isUpperHex c) : jsToUpper c = c := by
  rcases h with h | h <;> · simp only [jsToUpper]; rw [if_neg]; omega

theorem isUpperHex_hexVal {c : Nat} (h : isUpperHex c) : (hexVal? c).isSome := by
  unfold hexVal?
  rcases h with h | h <;> split_ifs <;> simp_all

theorem hexClean_of_upperHex {l : JStr} (h : ∀ c ∈ l, isUpperHex c) : hexClean l = l := by
  unfold hexClean
  rw [List.filter_eq_self.mpr, List.map_congr_left, List.map_id]
  · intro c hc
    exact isUpperHex_toUpper (h c hc)
  · intro c hc
    simp [isUpperHex_not_ws (h c hc)]

theorem hexVal?_range {a va : Nat} (ha : hexVal? a = some va) :
    (48 ≤ a ∧ a ≤ 57) ∨ (65 ≤ a ∧ a ≤ 70) ∨ (97 ≤ a ∧ a ≤ 102) := by
  unfold hexVal? at ha
  split_ifs at ha <;> omega

theorem jsParseInt16_hex_pair {a b va vb : Nat} (ha : hexVal? a = some va)
    (hb : hexVal? b = some vb) : jsParseInt16 [a, b] = some ((16 * va + vb : Nat) : Int) := by
  have har := hexVal?_range ha
  have hbr := hexVal?_range hb
  have haws : isJsWhitespace a = false := by
    simp only [isJsWhitespace]
    simp only [Bool.or_eq_false_iff, Bool.and_eq_false_iff, beq_eq_false_iff_ne, ne_eq,
      decide_eq_false_iff_not, not_le]
    omega
  unfold jsParseInt16
  simp only [List.dropWhile_cons, haws, Bool.false_eq_true, if_false]
  rw [if_neg (by omega : ¬ a = 43), if_neg (by omega : ¬ a = 45)]
  dsimp only
  rw [if_neg (by omega : ¬ (a = 48 ∧ (b = 120 ∨ b = 88)))]
  simp only [List.takeWhile_cons, ha, hb, Option.isSome_some, if_pos, List.takeWhile_nil]
  rw [if_neg (by simp : ¬ ([a, b] : JStr) = [])]
  simp only [List.foldl_cons, List.foldl_nil, ha, hb, Option.getD_some]
  congr 1
  push_cast
  ring

theorem byteHexU_eq {c : Nat} (h : c < 256) :
    (padStart2 (toHexLower c)).map jsToUpper = [hexUpperChar (c / 16), hexUpperChar (c % 16)] := by
  by_cases h16 : c < 16
  · have hdiv : c / 16 = 0 := Nat.div_eq_of_lt h16
    have hmod : c % 16 = c := Nat.mod_eq_of_lt h16
    rw [toHexLower, if_pos h16]
    simp only [padStart2, List.length_cons, List.length_nil, List.map_append, List.map_replicate,
      List.map_cons, List.map_nil, hdiv, hmod]
    have : jsToUpper 48 = 48 := by simp [jsToUpper]
    have h2 : jsToUpper (hexChar c) = hexUpperChar c := by
      unfold jsToUpper hexChar hexUpperChar
      split_ifs <;> omega
    have h3 : hexUpperChar 0 = 48 := by simp [hexUpperChar]
    simp [this, h2, h3, List.replicate]
  · rw [toHexLower, if_neg h16, if_pos h]
    have h2 : ∀ d, d < 16 → jsToUpper (hexChar d) = hexUpperChar d := by
      intro d hd
      unfold jsToUpper hexChar hexUpperChar
      split_ifs <;> omega
    simp only [padStart2, List.length_cons, List.length_nil, Nat.sub_self, List.replicate,
      List.nil_append, List.map_cons, List.map_nil]
    rw [h2 _ (Nat.div_lt_of_lt_mul (by omega)), h2 _ (Nat.mod_lt _ (by omega))]

theorem hexUpperChar_upperHex {d : Nat} (h : d < 16) : isUpperHex (hexUpperChar d) := by
  unfold hexUpperChar isUpperHex
  split_ifs <;> omega

theorem qrDataToHex_cons (c : Nat) (p : JStr) :
    qrDataToHex (c :: p) = (padStart2 (toHexLower c)).map jsToUpper ++ qrDataToHex p := by
  simp [qrDataToHex]

theorem qrDataToHex_mem_upperHex {p : JStr} (h : ∀ c ∈ p, c < 256) :
    ∀ c ∈ qrDataToHex p, isUpperHex c := by
  induction p with
  | nil => simp [qrDataToHex]
  | cons a p ih =>
    rw [qrDataToHex_cons, byteHexU_eq (h a (List.mem_cons_self a p))]
    intro c hc
    rcases List.mem_append.mp hc with hc | hc
    · have ha := h a (List.mem_cons_self a p)
      rcases List.mem_cons.mp hc with rfl | hc
      · exact hexUpperChar_upperHex (Nat.div_lt_of_lt_mul (by omega))
      · rcases List.mem_cons.mp hc with rfl | hc
        · exact hexUpperChar_upperHex (Nat.mod_lt _ (by omega))
        · simp at hc
    · exact ih (fun x hx => h x (List.mem_cons_of_mem a hx)) c hc

theorem toUint16_coe {c : Nat} (h : c < 65536) : toUint16 (c : Int) = c := by
  unfold toUint16
  omega

theorem decodePairs_qrDataToHex {p : JStr} (h : ∀ c ∈ p, c < 256) :
    decodePairs (qrDataToHex p) = some p := by
  induction p with
  | nil => simp [qrDataToHex, decodePairs]
  | cons a p ih =>
    have ha := h a (List.mem_cons_self a p)
    rw [qrDataToHex_cons, byteHexU_eq ha]
    have hdiv : a / 16 < 16 := Nat.div_lt_of_lt_mul (by omega)
    have hmod : a % 16 < 16 := Nat.mod_lt _ (by omega)
    show decodePairs (hexUpperChar (a / 16) :: hexUpperChar (a % 16) :: qrDataToHex p) = some (a :: p)
    rw [decodePairs]
    rw [jsParseInt16_hex_pair (hexVal?_hexUpperChar hdiv) (hexVal?_hexUpperChar hmod)]
    rw [ih (fun x hx => h x (List.mem_cons_of_mem a hx))]
    have hval : 16 * (a / 16) + a % 16 = a := by omega
    simp [hval, toUint16_coe (by omega : a < 65536)]

theorem qrDataToHex_length (p : JStr) (h : ∀ c ∈ p, c < 256) :
    (qrDataToHex p).length = 2 * p.length := by
  induction p with
  | nil => simp [qrDataToHex]
  | cons a p ih =>
    rw [qrDataToHex_cons, byteHexU_eq (h a (List.mem_cons_self a p))]
    simp only [List.length_append, List.length_cons, List.length_nil,
      ih (fun x hx => h x (List.mem_cons_of_mem a hx))]
    omega

theorem chunks4_flatten (l : JStr) : (chunks4 l).flatten = l := by
  induction l using chunks4.induct with
  | case1 => simp [chunks4]
  | case2 a b c d e rest ih => simp [chunks4, ih]
  | case3 l h1 h2 =>
    rw [chunks4.eq_def]
    split
    · simp_all
    · exact (h2 _ _ _ _ _ _ rfl).elim
    · simp

theorem hexClean_append (x y : JStr) : hexClean (x ++ y) = hexClean x ++ hexClean y := by
  simp [hexClean]

theorem hexClean_intercalate_space {L : List JStr} (h : ∀ x ∈ L, ∀ c ∈ x, isUpperHex c) :
    hexClean (List.intercalate [32] L) = L.flatten := by
  induction L with
  | nil => simp [List.intercalate, hexClean]
  | cons x L ih =>
    cases L with
    | nil => simp [List.intercalate, hexClean_of_upperHex (h x (List.mem_cons_self x []))]
    | cons y L' =>
      have hx := h x (List.mem_cons_self x _)
      have hrest : ∀ z ∈ y :: L', ∀ c ∈ z, isUpperHex c :=
        fun z hz => h z (List.mem_cons_of_mem x hz)
      have hstep : List.intercalate [32] (x :: y :: L') =
          x ++ 32 :: List.intercalate [32] (y :: L') := by
        simp [List.intercalate, List.intersperse]
      rw [hstep]
      have h32 : hexClean (32 :: List.intercalate [32] (y :: L')) =
          hexClean (List.intercalate [32] (y :: L')) := by
        simp [hexClean, isJsWhitespace]
      calc hexClean (x ++ 32 :: List.intercalate [32] (y :: L'))
          = hexClean x ++ hexClean (32 :: List.intercalate [32] (y :: L')) := hexClean_append ..
        _ = x ++ (y :: L').flatten := by rw [hexClean_of_upperHex hx, h32, ih hrest]
        _ = (x :: y :: L').flatten := by simp

theorem hexToQRData_of_clean {s p : JStr} (h : ∀ c ∈ p, c < 256)
    (hs : hexClean s = qrDataToHex p) : hexToQRData s = some p := by
  unfold hexToQRData
  rw [hs]
  dsimp only
  rw [qrDataToHex_length p h]
  rw [if_neg (by omega)]
  exact decodePairs_qrDataToHex h

/-- Claim C2: for every payload whose characters all have code points below
256 (which covers every payload the codec produces), `hexToQRData` inverts
`qrDataToHex`, and `formatHexForDisplay` does not break this because
`hexToQRData` strips whitespace before decoding. -/
theorem c2_hex_roundtrip (p : JStr) (h : ∀ c ∈ p, c < 256) :
    hexToQRData (qrDataToHex p) = some p ∧
    hexToQRData (formatHexForDisplay (qrDataToHex p)) = some p := by
  have hUH := qrDataToHex_mem_upperHex h
  have hclean : hexClean (qrDataToHex p) = qrDataToHex p := hexClean_of_upperHex hUH
  refine ⟨hexToQRData_of_clean h hclean, hexToQRData_of_clean h ?_⟩
  unfold formatHexForDisplay
  rw [hclean]
  by_cases hnil : qrDataToHex p = []
  · rw [if_pos hnil, hnil, hexClean]
    simp
  · rw [if_neg hnil]
    rw [hexClean_intercalate_space, chunks4_flatten]
    intro x hx c hc
    exact hUH c (by
      have : c ∈ (chunks4 (qrDataToHex p)).flatten := List.mem_flatten.mpr ⟨x, hx, hc⟩
      rwa [chunks4_flatten] at this)

/-- Witness for C2 at the concrete payload `"PRE:x"`. -/
theorem c2_hex_roundtrip_witness :
    (∀ c ∈ str "PRE:x", c < 256) ∧
    (hexToQRData (qrDataToHex (str "PRE:x")) = some (str "PRE:x") ∧
     hexToQRData (formatHexForDisplay (qrDataToHex (str "PRE:x"))) = some (str "PRE:x")) :=
  ⟨by decide, c2_hex_roundtrip (str "PRE:x") (by decide)⟩

theorem uriUnreserved_ranges {c : Nat} (h : uriUnreserved c = true) :
    (65 ≤ c ∧ c ≤ 90) ∨ (97 ≤ c ∧ c ≤ 122) ∨ (48 ≤ c ∧ c ≤ 57) ∨
    c = 45 ∨ c = 95 ∨ c = 46 ∨ c = 33 ∨ c = 126 ∨ c = 42 ∨ c = 39 ∨ c = 40 ∨ c = 41 := by
  simp only [uriUnreserved, Bool.or_eq_true, Bool.and_eq_true, decide_eq_true_eq,
    beq_iff_eq] at h
  tauto

theorem decode_cons_ne {c : Nat} (hc : c ≠ 37) (e : JStr) :
    decodeURIComponent (c :: e) = (decodeURIComponent e).map (c :: ·) := by
  unfold decodeURIComponent
  rcases e with _ | ⟨a, _ | ⟨b, rest⟩⟩ <;> simp [decodeURIAux, hc]

theorem decode_pct_low {h1 h2 v1 v2 : Nat} (hv1 : hexVal? h1 = some v1)
    (hv2 : hexVal? h2 = some v2) (hlt : 16 * v1 + v2 < 128) (e : JStr) :
    decodeURIComponent (37 :: h1 :: h2 :: e) =
      (decodeURIComponent e).map ((16 * v1 + v2) :: ·) := by
  unfold decodeURIComponent
  simp only [decodeURIAux, hv1, hv2, ne_eq, not_true_eq_false, if_false, if_pos hlt,
    reduceCtorEq]

theorem encode_cons_unreserved {c : Nat} (hu : uriUnreserved c = true) (cs : JStr) :
    encodeURIComponent (c :: cs) = (encodeURIComponent cs).map (c :: ·) := by
  cases cs <;> simp [encodeURIComponent, hu]

theorem encode_cons_escape {c : Nat} (hu : ¬ uriUnreserved c = true)
    (h1 : ¬ (55296 ≤ c ∧ c ≤ 56319)) (h2 : ¬ (56320 ≤ c ∧ c ≤ 57343)) (cs : JStr) :
    encodeURIComponent (c :: cs) = (encodeURIComponent cs).map (pctUtf8 c ++ ·) := by
  cases cs <;> simp [encodeURIComponent, hu, h1, h2]

theorem encodeURIComponent_ascii (name : JStr) (h : ∀ c ∈ name, c < 128) :
    ∃ e, encodeURIComponent name = some e ∧ (∀ c ∈ e, c ≠ 58) ∧
      decodeURIComponent e = some name := by
  induction name with
  | nil => exact ⟨[], rfl, by simp, rfl⟩
  | cons c cs ih =>
    obtain ⟨e, hE, h58, hdec⟩ := ih fun x hx => h x (List.mem_cons_of_mem c hx)
    have hc : c < 128 := h c (List.mem_cons_self c cs)
    by_cases hu : uriUnreserved c = true
    · refine ⟨c :: e, ?_, ?_, ?_⟩
      · rw [encode_cons_unreserved hu, hE]
        rfl
      · intro x hx
        rcases List.mem_cons.mp hx with rfl | hx
        · rcases uriUnreserved_ranges hu with h | h | h | h <;> omega
        · exact h58 x hx
      · have hc37 : c ≠ 37 := by
          rcases uriUnreserved_ranges hu with h | h | h | h <;> omega
        rw [decode_cons_ne hc37, hdec]
        rfl
    · have hns1 : ¬ (55296 ≤ c ∧ c ≤ 56319) := by omega
      have hns2 : ¬ (56320 ≤ c ∧ c ≤ 57343) := by omega
      have hflat : pctUtf8 c = [37, hexUpperChar (c / 16), hexUpperChar (c % 16)] := by
        unfold pctUtf8 utf8Bytes
        rw [if_pos hc]
        simp [pctByteStr]
      have hdiv : c / 16 < 16 := Nat.div_lt_of_lt_mul (by omega)
      have hmod : c % 16 < 16 := Nat.mod_lt _ (by omega)
      refine ⟨pctUtf8 c ++ e, ?_, ?_, ?_⟩
      · rw [encode_cons_escape hu hns1 hns2, hE]
        rfl
      · intro x hx
        rcases List.mem_append.mp hx with hx | hx
        · rw [hflat] at hx
          rcases List.mem_cons.mp hx with rfl | hx
          · omega
          · rcases List.mem_cons.mp hx with rfl | hx
            · rcases hexUpperChar_range hdiv with h' | h' <;> omega
            · rcases List.mem_cons.mp hx with rfl | hx
              · rcases hexUpperChar_range hmod with h' | h' <;> omega
              · simp at hx
        · exact h58 x hx
      · rw [hflat]
        show decodeURIComponent (37 :: hexUpperChar (c / 16) :: hexUpperChar (c % 16) :: e) = _
        rw [decode_pct_low (hexVal?_hexUpperChar hdiv) (hexVal?_hexUpperChar hmod) (by omega) e]
        rw [hdec]
        have hB : 16 * (c / 16) + c % 16 = c := by omega
        rw [hB]
        rfl

theorem uuidTest_chars {id : JStr} (h : uuidTest id = true) :
    ∀ x ∈ id, isHexDigitCI x = true ∨ x = 45 := by
  unfold uuidTest at h
  split at h
  case h_1 a b c d e heq =>
    simp only [Bool.and_eq_true, beq_iff_eq, List.all_eq_true] at h
    have hid : [45].intercalate (List.splitOn 45 id) = id := List.intercalate_splitOn id 45
    rw [heq] at hid
    intro x hx
    rw [← hid] at hx
    simp only [List.intercalate, List.intersperse, List.flatten, List.mem_append,
      List.mem_cons, List.mem_singleton, List.append_nil] at hx
    have hmem : x ∈ a ++ b ++ c ++ d ++ e ∨ x = 45 := by
      rcases hx with hx | (hx | hx) | hx | (hx | hx) | hx | (hx | hx) | hx | (hx | hx) | hx <;>
        first
          | (exact Or.inr hx)
          | (exact absurd hx (List.not_mem_nil x))
          | (exact Or.inl (by simp [hx]))
    rcases hmem with hmem | rfl
    · exact Or.inl (h.2 x hmem)
    · exact Or.inr rfl
  case h_2 => exact absurd h (by simp)

theorem uuidTest_no_colon {id : JStr} (h : uuidTest id = true) : 58 ∉ id := by
  intro hmem
  rcases uuidTest_chars h 58 hmem with h' | h'
  · exact absurd h' (by decide)
  · omega

theorem parse_wellformed (tc id e name : JStr) (pfxOpt : Option JStr)
    (htc58 : 58 ∉ tc) (htc45 : 45 ∉ tc) (hid58 : 58 ∉ id)
    (he58 : ∀ c ∈ e, c ≠ 58) (hdec : decodeURIComponent e = some name)
    (hpfx : ∀ p ∈ pfxOpt, p ≠ [] ∧ 58 ∉ p) :
    parseQRData (fullCodeOf pfxOpt tc ++ 58 :: id ++ 58 :: e) =
      .parsed ⟨typeMap tc, id, name, pfxOpt⟩ := by
  have he58' : (58 : Nat) ∉ e := fun hmem => he58 58 hmem rfl
  have hsplit_e : List.splitOn 58 e = [e] := splitOn_eq_single he58'
  have hsplit_ide : List.splitOn 58 (id ++ 58 :: e) = id :: List.splitOn 58 e :=
    splitOn_sep_of_not_mem hid58 _
  cases pfxOpt with
  | none =>
    show parseQRData (fullCodeOf none tc ++ 58 :: id ++ 58 :: e) = _
    unfold fullCodeOf
    have hsplit : List.splitOn 58 (tc ++ 58 :: id ++ 58 :: e) = [tc, id, e] := by
      rw [List.append_assoc, List.cons_append, splitOn_sep_of_not_mem htc58, hsplit_ide,
        hsplit_e]
    simp only [parseQRData, hsplit, List.isEmpty_cons, Bool.false_eq_true, if_false,
      intercalate_single, hdec]
    unfold splitTypePart
    rw [if_neg (by simpa using htc45)]
  | some p =>
    obtain ⟨hpne, hp58⟩ := hpfx p rfl
    show parseQRData (fullCodeOf (some p) tc ++ 58 :: id ++ 58 :: e) = _
    unfold fullCodeOf
    dsimp only
    rw [if_pos hpne]
    have hfull58 : 58 ∉ p ++ 45 :: tc := by
      intro hmem
      rcases List.mem_append.mp hmem with hm | hm
      · exact hp58 hm
      · rcases List.mem_cons.mp hm with h45 | hm
        · omega
        · exact htc58 hm
    have hsplit : List.splitOn 58 ((p ++ 45 :: tc) ++ 58 :: id ++ 58 :: e) =
        [p ++ 45 :: tc, id, e] := by
      rw [List.append_assoc, List.cons_append, splitOn_sep_of_not_mem hfull58, hsplit_ide,
        hsplit_e]
    simp only [parseQRData, hsplit, List.isEmpty_cons, Bool.false_eq_true, if_false,
      intercalate_single, hdec]
    unfold splitTypePart
    rw [if_pos (by simp : (p ++ 45 :: tc).contains 45 = true)]
    rw [splitOn_append_sep, splitOn_eq_single htc45]
    dsimp only
    rw [List.dropLast_concat, List.intercalate_splitOn p 45, List.getLastD_concat]

/-- Claim C1, counterexample: the round trip fails for prefixes the claim
quantifies over.  A prefix containing `':'` corrupts the whole parse (the
payload `"A:B-LOC:<uuid>:N"` decodes to type `"a"`, id `"B-LOC"`, name
`"<uuid>:N"`, no prefix), and the empty-string prefix is falsy in JavaScript,
so it is dropped on encode and comes back as `undefined`, not `""`. -/
theorem c1_roundtrip_counterexample :
    (generateQRData EntityType.location (str "N") (str "123e4567-e89b-12d3-a456-426614174000")
        (some (str "A:B"))).map parseQRData =
      some (ParseResult.parsed
        ⟨str "a", str "B-LOC", str "123e4567-e89b-12d3-a456-426614174000:N", none⟩) ∧
    (generateQRData EntityType.location (str "N") (str "123e4567-e89b-12d3-a456-426614174000")
        (some [])).map parseQRData =
      some (ParseResult.parsed
        ⟨str "location", str "123e4567-e89b-12d3-a456-426614174000", str "N", none⟩) ∧
    ¬ (generateQRData EntityType.location (str "N") (str "123e4567-e89b-12d3-a456-426614174000")
        (some (str "A:B"))).map parseQRData =
      some (ParseResult.parsed
        ⟨str "location", str "123e4567-e89b-12d3-a456-426614174000", str "N",
          some (str "A:B")⟩) ∧
    ¬ (generateQRData EntityType.location (str "N") (str "123e4567-e89b-12d3-a456-426614174000")
        (some [])).map parseQRData =
      some (ParseResult.parsed
        ⟨str "location", str "123e4567-e89b-12d3-a456-426614174000", str "N", some []⟩) := by
  decide

/-- Claim C1 (amended): for every entity type, every ASCII-safe name, every
UUID-shaped id and every nonempty colon-free prefix (or no prefix at all),
`parseQRData (generateQRData type name id prefix)` returns a record with the
original semantic type, the generated id, the original name (percent-decoding
inverting percent-encoding, including names containing `':'`), and the
supplied prefix. -/
theorem c1_roundtrip_amended (t : EntityType) (name id : JStr) (pfx : Option JStr)
    (hname : ∀ c ∈ name, c < 128) (hid : uuidTest id = true)
    (hpfx : ∀ p ∈ pfx, p ≠ [] ∧ 58 ∉ p) :
    ∃ payload, generateQRData t name id pfx = some payload ∧
      parseQRData payload = ParseResult.parsed ⟨entityTypeStr t, id, name, pfx⟩ := by
  obtain ⟨e, hE, h58, hdec⟩ := encodeURIComponent_ascii name hname
  have hid58 := uuidTest_no_colon hid
  refine ⟨_, by unfold generateQRData; rw [hE]; rfl, ?_⟩
  cases t with
  | location =>
    refine (parse_wellformed (((entityTypeStr EntityType.location).map jsToUpper).take 3)
      id e name pfx (by decide) (by decide) hid58 h58 hdec hpfx).trans ?_
    rw [show typeMap (((entityTypeStr EntityType.location).map jsToUpper).take 3) =
      entityTypeStr EntityType.location from by decide]
  | area =>
    refine (parse_wellformed (((entityTypeStr EntityType.area).map jsToUpper).take 3)
      id e name pfx (by decide) (by decide) hid58 h58 hdec hpfx).trans ?_
    rw [show typeMap (((entityTypeStr EntityType.area).map jsToUpper).take 3) =
      entityTypeStr EntityType.area from by decide]
  | sectionT =>
    refine (parse_wellformed (((entityTypeStr EntityType.sectionT).map jsToUpper).take 3)
      id e name pfx (by decide) (by decide) hid58 h58 hdec hpfx).trans ?_
    rw [show typeMap (((entityTypeStr EntityType.sectionT).map jsToUpper).take 3) =
      entityTypeStr EntityType.sectionT from by decide]
  | item =>
    refine (parse_wellformed (((entityTypeStr EntityType.item).map jsToUpper).take 3)
      id e name pfx (by decide) (by decide) hid58 h58 hdec hpfx).trans ?_
    rw [show typeMap (((entityTypeStr EntityType.item).map jsToUpper).take 3) =
      entityTypeStr EntityType.item from by decide]

/-- Witness for the amended C1 at type `location`, name `"Storage Room"`,
a concrete UUID and prefix `"WAREHOUSE"`. -/
theorem c1_roundtrip_amended_witness :
    (∀ c ∈ str "Storage Room", c < 128) ∧
    uuidTest (str "123e4567-e89b-12d3-a456-426614174000") = true ∧
    ∃ payload,
      generateQRData EntityType.location (str "Storage Room")
        (str "123e4567-e89b-12d3-a456-426614174000") (some (str "WAREHOUSE")) = some payload ∧
      parseQRData payload = ParseResult.parsed
        ⟨entityTypeStr EntityType.location, str "123e4567-e89b-12d3-a456-426614174000",
          str "Storage Room", some (str "WAREHOUSE")⟩ :=
  ⟨by decide, by decide,
    c1_roundtrip_amended EntityType.location (str "Storage Room")
      (str "123e4567-e89b-12d3-a456-426614174000") (some (str "WAREHOUSE"))
      (by decide) (by decide)
      (by intro p hp; cases hp; exact ⟨by decide, by decide⟩)⟩

/-- Claim C3, counterexample: `isValidQRData` never runs the decoder, so on
`"LOC:<uuid>:%"` it answers `true` although `parseQRData` throws a
`URIError` from `decodeURIComponent` (decode does not succeed), refuting the
claimed equivalence. -/
theorem c3_validity_gate_counterexample :
    isValidQRData (str "LOC:123e4567-e89b-12d3-a456-426614174000:%") = true ∧
    parseQRData (str "LOC:123e4567-e89b-12d3-a456-426614174000:%") = ParseResult.thrown := by
  decide

/-- Claim C3 (amended): for every payload on which `parseQRData` does not
throw, `isValidQRData` is true exactly when `parseQRData` returns a record
and the second `':'`-separated segment matches the UUID shape; moreover
`isValidQRData (generateQRData type name id)` (no prefix) is true whenever
the generated id is UUID-shaped, and `"garbage"` and `"LOC:not-a-uuid:Name"`
are rejected.  (On payloads whose name segment fails to percent-decode,
`isValidQRData` can be true while `parseQRData` throws.) -/
theorem c3_validity_gate_amended :
    (∀ p : JStr, parseQRData p ≠ ParseResult.thrown →
      (isValidQRData p = true ↔
        (∃ r, parseQRData p = ParseResult.parsed r) ∧
        ∃ id, (List.splitOn 58 p)[1]? = some id ∧ uuidTest id = true)) ∧
    (∀ (t : EntityType) (name id : JStr), uuidTest id = true →
      ∀ payload, generateQRData t name id none = some payload →
        isValidQRData payload = true) ∧
    isValidQRData (str "garbage") = false ∧
    isValidQRData (str "LOC:not-a-uuid:Name") = false := by
  refine ⟨?_, ?_, by decide, by decide⟩
  · intro p hthrown
    cases hsplit : List.splitOn 58 p with
    | nil => exact absurd hsplit (List.splitOnP_ne_nil _ p)
    | cons t1 rest1 =>
      cases rest1 with
      | nil =>
        simp only [isValidQRData, parseQRData, hsplit]
        simp
      | cons i rest2 =>
        simp only [parseQRData, hsplit] at hthrown ⊢
        cases hdec : (if (rest2 : List JStr).isEmpty then some ([] : JStr)
            else decodeURIComponent (List.intercalate [58] rest2)) with
        | none =>
          rw [hdec] at hthrown
          simp at hthrown
        | some nm =>
          simp only [hdec, isValidQRData, hsplit]
          constructor
          · intro h
            exact ⟨⟨_, rfl⟩, i, by simp, h⟩
          · rintro ⟨-, id', hg, hu⟩
            simp only [List.getElem?_cons_succ, List.getElem?_cons_zero,
              Option.some.injEq] at hg
            exact hg ▸ hu
  · intro t name id hid payload hgen
    unfold generateQRData at hgen
    cases hE : encodeURIComponent name with
    | none =>
      rw [hE] at hgen
      simp at hgen
    | some e =>
      rw [hE] at hgen
      simp only [Option.map_some', Option.some.injEq] at hgen
      subst hgen
      have hid58 := uuidTest_no_colon hid
      cases t with
      | location =>
        show isValidQRData
          (fullCodeOf none (((entityTypeStr EntityType.location).map jsToUpper).take 3)
            ++ 58 :: id ++ 58 :: e) = true
        have hsplit : List.splitOn 58
            (fullCodeOf none (((entityTypeStr EntityType.location).map jsToUpper).take 3)
              ++ 58 :: id ++ 58 :: e) =
            ((entityTypeStr EntityType.location).map jsToUpper).take 3 ::
              id :: List.splitOn 58 e := by
          rw [show fullCodeOf none (((entityTypeStr EntityType.location).map jsToUpper).take 3)
              = ((entityTypeStr EntityType.location).map jsToUpper).take 3 from rfl,
            List.append_assoc, List.cons_append,
            splitOn_sep_of_not_mem (by decide), splitOn_sep_of_not_mem hid58]
        simp only [isValidQRData, hsplit]
        exact hid
      | area =>
        show isValidQRData
          (fullCodeOf none (((entityTypeStr EntityType.area).map jsToUpper).take 3)
            ++ 58 :: id ++ 58 :: e) = true
        have hsplit : List.splitOn 58
            (fullCodeOf none (((entityTypeStr EntityType.area).map jsToUpper).take 3)
              ++ 58 :: id ++ 58 :: e) =
            ((entityTypeStr EntityType.area).map jsToUpper).take 3 ::
              id :: List.splitOn 58 e := by
          rw [show fullCodeOf none (((entityTypeStr EntityType.area).map jsToUpper).take 3)
              = ((entityTypeStr EntityType.area).map jsToUpper).take 3 from rfl,
            List.append_assoc, List.cons_append,
            splitOn_sep_of_not_mem (by decide), splitOn_sep_of_not_mem hid58]
        simp only [isValidQRData, hsplit]
        exact hid
      | sectionT =>
        show isValidQRData
          (fullCodeOf none (((entityTypeStr EntityType.sectionT).map jsToUpper).take 3)
            ++ 58 :: id ++ 58 :: e) = true
        have hsplit : List.splitOn 58
            (fullCodeOf none (((entityTypeStr EntityType.sectionT).map jsToUpper).take 3)
              ++ 58 :: id ++ 58 :: e) =
            ((entityTypeStr EntityType.sectionT).map jsToUpper).take 3 ::
              id :: List.splitOn 58 e := by
          rw [show fullCodeOf none (((entityTypeStr EntityType.sectionT).map jsToUpper).take 3)
              = ((entityTypeStr EntityType.sectionT).map jsToUpper).take 3 from rfl,
            List.append_assoc, List.cons_append,
            splitOn_sep_of_not_mem (by decide), splitOn_sep_of_not_mem hid58]
        simp only [isValidQRData, hsplit]
        exact hid
      | item =>
        show isValidQRData
          (fullCodeOf none (((entityTypeStr EntityType.item).map jsToUpper).take 3)
            ++ 58 :: id ++ 58 :: e) = true
        have hsplit : List.splitOn 58
            (fullCodeOf none (((entityTypeStr EntityType.item).map jsToUpper).take 3)
              ++ 58 :: id ++ 58 :: e) =
            ((entityTypeStr EntityType.item).map jsToUpper).take 3 ::
              id :: List.splitOn 58 e := by
          rw [show fullCodeOf none (((entityTypeStr EntityType.item).map jsToUpper).take 3)
              = ((entityTypeStr EntityType.item).map jsToUpper).take 3 from rfl,
            List.append_assoc, List.cons_append,
            splitOn_sep_of_not_mem (by decide), splitOn_sep_of_not_mem hid58]
        simp only [isValidQRData, hsplit]
        exact hid

/-- Witness for the amended C3 at the pre-generated payload
`"PRE:123e4567-e89b-12d3-a456-426614174000"`, which parses without
throwing. -/
theorem c3_validity_gate_amended_witness :
    parseQRData (str "PRE:123e4567-e89b-12d3-a456-426614174000") ≠ ParseResult.thrown ∧
    (isValidQRData (str "PRE:123e4567-e89b-12d3-a456-426614174000") = true ↔
      (∃ r, parseQRData (str "PRE:123e4567-e89b-12d3-a456-426614174000") =
        ParseResult.parsed r) ∧
      ∃ id, (List.splitOn 58 (str "PRE:123e4567-e89b-12d3-a456-426614174000"))[1]? = some id ∧
        uuidTest id = true) :=
  ⟨by decide, c3_validity_gate_amended.1 (str "PRE:123e4567-e89b-12d3-a456-426614174000")
    (by decide)⟩

/-- Claim C4, counterexample: `parseQRData` does not reject unknown type
codes.  `"XYZ:<uuid>"` decodes to a record with type `"xyz"` (the lowercased
code) instead of returning `null`. -/
theorem c4_unknown_code_counterexample :
    parseQRData (str "XYZ:123e4567-e89b-12d3-a456-426614174000") =
      ParseResult.parsed
        ⟨str "xyz", str "123e4567-e89b-12d3-a456-426614174000", [], none⟩ ∧
    parseQRData (str "XYZ:123e4567-e89b-12d3-a456-426614174000") ≠
      ParseResult.nullResult := by
  decide

/-- Claim C4 (amended): `parseQRData` is lenient, not strict.  For every
payload with at least two `':'`-separated segments whose type code (the part
of the first segment after the optional prefix) is none of `LOC`, `ARE`,
`SEC`, `ITE`, `PRE`, the function never returns `null`; when it returns a
record, that record's type is the lowercased type code
(`typeMap[typePrefix] || typePrefix.toLowerCase()`). -/
theorem c4_unknown_code_amended (p typePart id : JStr) (rest : List JStr)
    (hsplit : List.splitOn 58 p = typePart :: id :: rest)
    (hunknown : ∀ kc ∈ [str "LOC", str "ARE", str "SEC", str "ITE", str "PRE"],
      (splitTypePart typePart).2 ≠ kc) :
    parseQRData p ≠ ParseResult.nullResult ∧
    ∀ r, parseQRData p = ParseResult.parsed r →
      r.type = ((splitTypePart typePart).2).map jsToLower := by
  have h1 := hunknown (str "LOC") (by simp)
  have h2 := hunknown (str "ARE") (by simp)
  have h3 := hunknown (str "SEC") (by simp)
  have h4 := hunknown (str "ITE") (by simp)
  have h5 := hunknown (str "PRE") (by simp)
  simp only [parseQRData, hsplit]
  cases hdec : (if (rest : List JStr).isEmpty then some ([] : JStr)
      else decodeURIComponent (List.intercalate [58] rest)) with
  | none => simp [hdec]
  | some nm =>
    simp only [hdec]
    refine ⟨by simp, ?_⟩
    intro r hr
    simp only [ParseResult.parsed.injEq] at hr
    rw [← hr]
    show typeMap (splitTypePart typePart).2 = _
    unfold typeMap
    rw [if_neg h1, if_neg h2, if_neg h3, if_neg h4, if_neg h5]

/-- Witness for the amended C4 at the payload `"XYZ:abc"`. -/
theorem c4_unknown_code_amended_witness :
    List.splitOn 58 (str "XYZ:abc") = [str "XYZ", str "abc"] ∧
    (∀ kc ∈ [str "LOC", str "ARE", str "SEC", str "ITE", str "PRE"],
      (splitTypePart (str "XYZ")).2 ≠ kc) ∧
    (parseQRData (str "XYZ:abc") ≠ ParseResult.nullResult ∧
     ∀ r, parseQRData (str "XYZ:abc") = ParseResult.parsed r →
       r.type = ((splitTypePart (str "XYZ")).2).map jsToLower) :=
  ⟨by decide, by decide,
    c4_unknown_code_amended (str "XYZ:abc") (str "XYZ") (str "abc") [] (by decide) (by decide)⟩

/-- Claim C10: the validity gate inspects only the segment count and the
shape of the second segment.  Any string with at least two `':'`-separated
segments whose second segment matches the UUID regex (case-insensitively)
passes `isValidQRData`, no matter what the type code or the trailing
segments contain. -/
theorem c10_validity_shape_only (p typePart id : JStr) (rest : List JStr)
    (hsplit : List.splitOn 58 p = typePart :: id :: rest)
    (hid : uuidTest id = true) :
    isValidQRData p = true := by
  simp only [isValidQRData, hsplit]
  exact hid

/-- Witness for C10: an unknown type code, an uppercase UUID, and trailing
junk segments still validate. -/
theorem c10_validity_shape_only_witness :
    List.splitOn 58 (str "XYZ:123E4567-E89B-12D3-A456-426614174000:::junk") =
      [str "XYZ", str "123E4567-E89B-12D3-A456-426614174000", [], [], str "junk"] ∧
    uuidTest (str "123E4567-E89B-12D3-A456-426614174000") = true ∧
    isValidQRData (str "XYZ:123E4567-E89B-12D3-A456-426614174000:::junk") = true :=
  ⟨by decide, by decide,
    c10_validity_shape_only (str "XYZ:123E4567-E89B-12D3-A456-426614174000:::junk")
      (str "XYZ") (str "123E4567-E89B-12D3-A456-426614174000") [[], [], str "junk"]
      (by decide) (by decide)⟩

theorem pool_reassign_eq (pool : List PreGeneratedQRR) (v : String)
    (g : PreGeneratedQRR → PreGeneratedQRR) :
    (if pool.any fun q => q.qrData == v
      then pool.map fun q => if q.qrData = v then g q else q
      else pool) =
      pool.map fun q => if q.qrData = v then g q else q := by
  split
  · rfl
  · next h =>
    have hall : ∀ q ∈ pool, q.qrData ≠ v := by
      intro q hq hqv
      exact h (List.any_eq_true.mpr ⟨q, hq, by simp [hqv]⟩)
    have hmap : (pool.map fun q => if q.qrData = v then g q else q) = pool.map id :=
      List.map_congr_left fun q hq => by rw [if_neg (hall q hq)]; rfl
    rw [hmap, List.map_id]

/-- Claim C5, counterexample: a pool entry already assigned to another
entity is silently reassigned.  With a single pool entry for `"PRE:x"`
assigned to `"other"` as a location, `updateItemQR "item-1" "PRE:x"`
overwrites `assignedTo`/`assignedType` without the entry first being
cleared, contradicting the claimed unassigned-only guard. -/
theorem c5_reassignment_counterexample :
    (updateItemQR "item-1" "PRE:x"
        ⟨⟨[], [], [], []⟩,
          [⟨"PRE:x", none, "t0", some "other", some EntityType.location, none, none⟩]⟩
      ).preGeneratedQRs =
      [⟨"PRE:x", none, "t0", some "item-1", some EntityType.item, none, none⟩] := by
  decide

/-- Claim C5 (amended): the pool reconciliation in the four QR-update
operations is last-write-wins.  Every pool entry whose `qrData` equals the
new value gets `assignedTo`/`assignedType` overwritten with the updating
entity's id and type — whether or not the entry was already assigned — and
entries with a different `qrData` are untouched. -/
theorem c5_assignment_last_write_wins (s : AppState) (id v : String) :
    (updateLocationQR id v s).preGeneratedQRs =
      (s.preGeneratedQRs.map fun q => if q.qrData = v then
        { q with assignedTo := some id, assignedType := some EntityType.location } else q) ∧
    (updateAreaQR id v s).preGeneratedQRs =
      (s.preGeneratedQRs.map fun q => if q.qrData = v then
        { q with assignedTo := some id, assignedType := some EntityType.area } else q) ∧
    (updateSectionQR id v s).preGeneratedQRs =
      (s.preGeneratedQRs.map fun q => if q.qrData = v then
        { q with assignedTo := some id, assignedType := some EntityType.sectionT } else q) ∧
    (updateItemQR id v s).preGeneratedQRs =
      (s.preGeneratedQRs.map fun q => if q.qrData = v then
        { q with assignedTo := some id, assignedType := some EntityType.item } else q) := by
  refine ⟨?_, ?_, ?_, ?_⟩
  · simp only [updateLocationQR]
    exact pool_reassign_eq s.preGeneratedQRs v _
  · simp only [updateAreaQR]
    exact pool_reassign_eq s.preGeneratedQRs v _
  · simp only [updateSectionQR]
    exact pool_reassign_eq s.preGeneratedQRs v _
  · simp only [updateItemQR]
    exact pool_reassign_eq s.preGeneratedQRs v _

/-- Claim C6: `migrateBackupData` is idempotent on every backup value (the
`"1.0"` branch stamps version `"2.0"`, on which the function is the
identity), and migrating already-current version-`"2.0"` data is a no-op. -/
theorem c6_migration_idempotent (d : BackupData) :
    migrateBackupData (migrateBackupData d) = migrateBackupData d ∧
    (d.version = "2.0" → migrateBackupData d = d) := by
  constructor
  · by_cases h : d.version = "1.0"
    · have hv : (migrateBackupData d).version = "2.0" := by
        unfold migrateBackupData
        rw [if_pos h]
        rfl
      rw [migrateBackupData, hv, if_neg (by decide)]
    · have hd : migrateBackupData d = d := by
        rw [migrateBackupData, if_neg h]
      rw [hd]
      exact hd
  · intro h2
    rw [migrateBackupData, if_neg (by rw [h2]; decide)]

/-- Witness for C6 at a concrete version-`"2.0"` snapshot. -/
theorem c6_migration_idempotent_witness :
    migrateBackupData (migrateBackupData ⟨"2.0", "2024-01-01", ⟨[], [], [], []⟩, some [], none⟩) =
      migrateBackupData ⟨"2.0", "2024-01-01", ⟨[], [], [], []⟩, some [], none⟩ ∧
    ((⟨"2.0", "2024-01-01", ⟨[], [], [], []⟩, some [], none⟩ : BackupData).version = "2.0" →
      migrateBackupData ⟨"2.0", "2024-01-01", ⟨[], [], [], []⟩, some [], none⟩ =
        ⟨"2.0", "2024-01-01", ⟨[], [], [], []⟩, some [], none⟩) :=
  c6_migration_idempotent ⟨"2.0", "2024-01-01", ⟨[], [], [], []⟩, some [], none⟩

/-- Claim C7, counterexample: version `"2.1"` denotes a version newer than
the current backup version `"2.0"`, yet `checkBackupCompatibility` reports
it compatible with no warnings, because only the major components are
compared. -/
theorem c7_future_version_counterexample :
    checkBackupCompatibility ⟨"2.1", "2024-01-01", ⟨[], [], [], []⟩, some [], none⟩ =
      ⟨true, []⟩ := by
  decide

/-- Claim C7 (amended): only backups whose version has a major component
strictly greater than 2 (the major of `BACKUP_VERSION = "2.0"`) are
rejected; the result is `compatible: false` with exactly the
newer-version warning.  Same-major higher-minor versions such as `"2.1"`
are accepted, and no caller of `checkBackupCompatibility` exists in
the codebase (`importBackup` validates and migrates without consulting it). -/
theorem c7_major_version_rejection (d : BackupData) (m : Int)
    (hm : jsNumber ((jsSplitDot d.version).headD "") = some m) (h2 : 2 < m) :
    checkBackupCompatibility d = ⟨false, [newerVersionWarning]⟩ := by
  have hcur : jsNumber ((jsSplitDot BACKUP_VERSION).headD "") = some 2 := by decide
  unfold checkBackupCompatibility
  dsimp only
  rw [hm, hcur]
  simp [jsLtOpt, h2]

/-- Witness for the amended C7 at a concrete version-`"3.0"` snapshot. -/
theorem c7_major_version_rejection_witness :
    jsNumber ((jsSplitDot (⟨"3.0", "2024-01-01", ⟨[], [], [], []⟩, some [], none⟩ :
      BackupData).version).headD "") = some 3 ∧
    (2 : Int) < 3 ∧
    checkBackupCompatibility ⟨"3.0", "2024-01-01", ⟨[], [], [], []⟩, some [], none⟩ =
      ⟨false, [newerVersionWarning]⟩ :=
  ⟨by decide, by decide,
    c7_major_version_rejection ⟨"3.0", "2024-01-01", ⟨[], [], [], []⟩, some [], none⟩ 3
      (by decide) (by decide)⟩

theorem mergeByKey_mergeAppend {α : Type} (key : α → String) :
    ∀ (incoming live : List α), MergeAppend key live incoming (mergeByKey key live incoming) := by
  intro incoming
  induction incoming with
  | nil =>
    intro live
    exact ⟨[], by simp [mergeByKey], by simp, by simp⟩
  | cons x inc ih =>
    intro live
    by_cases h : live.any fun y => key y == key x
    · have hstep : mergeByKey key live (x :: inc) = mergeByKey key live inc := by
        unfold mergeByKey
        rw [List.foldl_cons, if_pos h]
      rw [hstep]
      obtain ⟨extra, heq, hmem, hcov⟩ := ih live
      refine ⟨extra, heq, ?_, ?_⟩
      · intro x' hx'
        obtain ⟨hin, hke⟩ := hmem x' hx'
        exact ⟨List.mem_cons_of_mem x hin, hke⟩
      · intro z hz hzk
        rcases List.mem_cons.mp hz with rfl | hz
        · obtain ⟨y, hy, hky⟩ := List.any_eq_true.mp h
          exact absurd (beq_iff_eq.mp hky).symm (hzk y hy)
        · exact hcov z hz hzk
    · have hnone : ∀ y ∈ live, key y ≠ key x := by
        intro y hy hk
        exact h (List.any_eq_true.mpr ⟨y, hy, by simp [hk]⟩)
      have hstep : mergeByKey key live (x :: inc) = mergeByKey key (live ++ [x]) inc := by
        unfold mergeByKey
        rw [List.foldl_cons, if_neg h]
      rw [hstep]
      obtain ⟨extra, heq, hmem, hcov⟩ := ih (live ++ [x])
      refine ⟨x :: extra, ?_, ?_, ?_⟩
      · rw [heq, List.append_assoc]
        rfl
      · intro x' hx'
        rcases List.mem_cons.mp hx' with rfl | hx'
        · exact ⟨List.mem_cons_self _ _, fun y hy hk => hnone y hy hk.symm⟩
        · obtain ⟨hin, hke⟩ := hmem x' hx'
          exact ⟨List.mem_cons_of_mem x hin,
            fun y hy => hke y (List.mem_append_left _ hy)⟩
      · intro z hz hzk
        rcases List.mem_cons.mp hz with rfl | hz
        · exact ⟨z, List.mem_cons_self _ _, rfl⟩
        · by_cases hzx : key z = key x
          · exact ⟨x, List.mem_cons_self _ _, hzx.symm⟩
          · obtain ⟨x', hx', hk⟩ := hcov z hz (by
              intro y hy
              rcases List.mem_append.mp hy with hy | hy
              · exact hzk y hy
              · rw [List.mem_singleton.mp hy]
                exact hzx)
            exact ⟨x', List.mem_cons_of_mem x hx', hk⟩

/-- Claim C8: `merge`-mode restore never overwrites or removes a live
record.  For each of the five collections (entities keyed by `id`, the
pre-generated pool keyed by `qrData`), the merged list is the live list
followed by exactly those snapshot records whose key was not already
present. -/
theorem c8_merge_safety (s : AppState) (b : RestorePayload) :
    MergeAppend (fun l => l.id) s.data.locations b.inventory.locations
      (restoreFromBackup b RestoreMode.merge s).data.locations ∧
    MergeAppend (fun a => a.id) s.data.areas b.inventory.areas
      (restoreFromBackup b RestoreMode.merge s).data.areas ∧
    MergeAppend (fun c => c.id) s.data.sections b.inventory.sections
      (restoreFromBackup b RestoreMode.merge s).data.sections ∧
    MergeAppend (fun i => i.id) s.data.items b.inventory.items
      (restoreFromBackup b RestoreMode.merge s).data.items ∧
    MergeAppend (fun q => q.qrData) s.preGeneratedQRs (b.preGeneratedQRs.getD [])
      (restoreFromBackup b RestoreMode.merge s).preGeneratedQRs :=
  ⟨mergeByKey_mergeAppend _ _ _, mergeByKey_mergeAppend _ _ _, mergeByKey_mergeAppend _ _ _,
    mergeByKey_mergeAppend _ _ _, mergeByKey_mergeAppend _ _ _⟩

/-- Witness for C8 at a concrete one-location live state and a snapshot
holding the same location id plus a fresh one. -/
theorem c8_merge_safety_witness :
    MergeAppend (fun l => l.id)
      (⟨⟨[⟨"1", "Office", "LOC:1", "t1", none, none⟩], [], [], []⟩, []⟩ : AppState).data.locations
      (⟨⟨[⟨"1", "Changed", "LOC:1x", "t2", none, none⟩, ⟨"2", "Garage", "LOC:2", "t3", none, none⟩],
        [], [], []⟩, some []⟩ : RestorePayload).inventory.locations
      (restoreFromBackup
        ⟨⟨[⟨"1", "Changed", "LOC:1x", "t2", none, none⟩, ⟨"2", "Garage", "LOC:2", "t3", none, none⟩],
          [], [], []⟩, some []⟩
        RestoreMode.merge
        ⟨⟨[⟨"1", "Office", "LOC:1", "t1", none, none⟩], [], [], []⟩, []⟩).data.locations ∧
    MergeAppend (fun q => q.qrData)
      (⟨⟨[⟨"1", "Office", "LOC:1", "t1", none, none⟩], [], [], []⟩, []⟩ : AppState).preGeneratedQRs
      ((⟨⟨[⟨"1", "Changed", "LOC:1x", "t2", none, none⟩, ⟨"2", "Garage", "LOC:2", "t3", none, none⟩],
        [], [], []⟩, some []⟩ : RestorePayload).preGeneratedQRs.getD [])
      (restoreFromBackup
        ⟨⟨[⟨"1", "Changed", "LOC:1x", "t2", none, none⟩, ⟨"2", "Garage", "LOC:2", "t3", none, none⟩],
          [], [], []⟩, some []⟩
        RestoreMode.merge
        ⟨⟨[⟨"1", "Office", "LOC:1", "t1", none, none⟩], [], [], []⟩, []⟩).preGeneratedQRs :=
  ⟨(c8_merge_safety ⟨⟨[⟨"1", "Office", "LOC:1", "t1", none, none⟩], [], [], []⟩, []⟩
      ⟨⟨[⟨"1", "Changed", "LOC:1x", "t2", none, none⟩, ⟨"2", "Garage", "LOC:2", "t3", none, none⟩],
        [], [], []⟩, some []⟩).1,
   (c8_merge_safety ⟨⟨[⟨"1", "Office", "LOC:1", "t1", none, none⟩], [], [], []⟩, []⟩
      ⟨⟨[⟨"1", "Changed", "LOC:1x", "t2", none, none⟩, ⟨"2", "Garage", "LOC:2", "t3", none, none⟩],
        [], [], []⟩, some []⟩).2.2.2.2⟩

theorem parsePairs_eq_none_iff (cs : List JStr) :
    parsePairs cs = none ↔ ∃ pr ∈ cs, jsParseInt16 pr = none := by
  induction cs with
  | nil => simp [parsePairs]
  | cons pr rest ih =>
    simp only [parsePairs]
    cases hp : jsParseInt16 pr with
    | none => exact iff_of_true rfl ⟨pr, List.mem_cons_self _ _, hp⟩
    | some v =>
      cases hr : parsePairs rest with
      | none =>
        obtain ⟨p2, h1, h2⟩ := ih.mp hr
        exact iff_of_true rfl ⟨p2, List.mem_cons_of_mem pr h1, h2⟩
      | some vs =>
        refine iff_of_false (by simp) ?_
        rintro ⟨p2, hmem, h2⟩
        rcases List.mem_cons.mp hmem with rfl | hmem
        · rw [hp] at h2
          exact Option.noConfusion h2
        · have hn := ih.mpr ⟨p2, hmem, h2⟩
          rw [hr] at hn
          exact Option.noConfusion hn

theorem decodePairs_eq_parsePairs : ∀ l : JStr, l.length % 2 = 0 →
    decodePairs l = (parsePairs (pairChunks l)).map (List.map toUint16) := by
  intro l
  induction l using pairChunks.induct with
  | case1 =>
    intro _
    simp [decodePairs, pairChunks, parsePairs]
  | case2 a b rest ih =>
    intro hlen
    have hrest : rest.length % 2 = 0 := by
      simp only [List.length_cons] at hlen
      omega
    simp only [decodePairs, pairChunks, parsePairs]
    cases hp : jsParseInt16 [a, b] with
    | none => simp [hp]
    | some v =>
      simp only [hp, ih hrest]
      cases parsePairs (pairChunks rest) <;> simp
  | case3 a =>
    intro hlen
    simp at hlen

/-- Claim C9, counterexample: `parseInt` leniency defeats the claimed pair
validation.  The pair `"1G"` is not two hexadecimal digits, yet
`hexToQRData "1G"` returns the character `0x01` (parseInt parses the longest
digit prefix `"1"`); and `"-1"` returns the character `0xFFFF` (parseInt
accepts a sign and `String.fromCharCode` wraps `-1` with ToUint16) — neither
input yields `null`. -/
theorem c9_fromhex_counterexample :
    hexToQRData (str "1G") = some [1] ∧ hexToQRData (str "-1") = some [65535] := by
  decide

/-- Claim C9 (amended): after stripping whitespace and uppercasing,
`hexToQRData` returns `null` exactly when the cleaned input has odd length
or some 2-character pair parses to NaN under `parseInt(·, 16)` (no leading
hexadecimal digit after an optional sign or `0X`); otherwise it maps each
pair to `String.fromCharCode(parseInt(pair, 16))`.  Pairs that really are
two hexadecimal digits parse to exactly their value — the claim fails only
on parseInt's lenient handling of pairs like `"1G"` or `"-1"`. -/
theorem c9_fromhex_amended (s : JStr) :
    ((hexClean s).length % 2 = 1 → hexToQRData s = none) ∧
    ((hexClean s).length % 2 = 0 →
      hexToQRData s = (parsePairs (pairChunks (hexClean s))).map (List.map toUint16) ∧
      (hexToQRData s = none ↔
        ∃ pr ∈ pairChunks (hexClean s), jsParseInt16 pr = none)) ∧
    (∀ a b va vb : Nat, hexVal? a = some va → hexVal? b = some vb →
      jsParseInt16 [a, b] = some ((16 * va + vb : Nat) : Int)) := by
  refine ⟨?_, ?_, fun a b va vb ha hb => jsParseInt16_hex_pair ha hb⟩
  · intro hodd
    unfold hexToQRData
    dsimp only
    rw [if_pos (by omega)]
  · intro heven
    have hmain : hexToQRData s = (parsePairs (pairChunks (hexClean s))).map (List.map toUint16) := by
      unfold hexToQRData
      dsimp only
      rw [if_neg (by omega)]
      exact decodePairs_eq_parsePairs (hexClean s) heven
    refine ⟨hmain, ?_⟩
    rw [hmain, ← parsePairs_eq_none_iff]
    cases parsePairs (pairChunks (hexClean s)) <;> simp

/-- Witness for the amended C9 at the input `"0A 1b"` (cleans to `"0A1B"`). -/
theorem c9_fromhex_amended_witness :
    (hexClean (str "0A 1b")).length % 2 = 0 ∧
    (hexToQRData (str "0A 1b") =
        (parsePairs (pairChunks (hexClean (str "0A 1b")))).map (List.map toUint16) ∧
      (hexToQRData (str "0A 1b") = none ↔
        ∃ pr ∈ pairChunks (hexClean (str "0A 1b")), jsParseInt16 pr = none)) :=
  ⟨by decide, (c9_fromhex_amended (str "0A 1b")).2.1 (by decide)⟩
